import Mathlib

/-!
# loganalysis: the `locket` command

A shallow embedding of `cmd/locket.go`: the three lock-lifecycle matchers, the
parser loop over decoded lager entries, the lane arithmetic of
`constructDataPoints` and the colour index of the dot colour provider.

Conventions of the embedding

* Go `int` is the 64-bit two's complement integer of the usual targets: a value
  is an `Int`, and every product and sum goes through `wrap64`.
* `float64(n)` of an integer is again an integer (nothing below `2^63` has a
  fractional part after rounding to 53 bits), so a lane is represented by the
  exact integer the float denotes; `float64OfInt` performs the IEEE-754
  round-to-nearest, ties-to-even step.
* A message is a sequence of runes; `regexp` is modelled by a Brzozowski
  derivative matcher over the small fragment the three patterns use.
* `chug.Chug` and `ioutil.ReadFile` are collaborators outside the repository and
  are parameters of the functions that call them.
-/

set_option maxRecDepth 100000

namespace Loganalysis

/-! ## Regular expressions (the fragment of Go `regexp` used by the patterns) -/

/-- Regular expressions over runes; `rune p` matches one rune satisfying `p`. -/
inductive Regex where
  | nothing : Regex
  | empty : Regex
  | rune (p : Char → Bool) : Regex
  | alt (r s : Regex) : Regex
  | cat (r s : Regex) : Regex
  | star (r : Regex) : Regex

namespace Regex

/-- Whether the expression accepts the empty text. -/
def nullable : Regex → Bool
  | nothing => false
  | empty => true
  | rune _ => false
  | alt r s => nullable r || nullable s
  | cat r s => nullable r && nullable s
  | star _ => true

/-- Brzozowski derivative: what remains to be matched after reading `c`. -/
def deriv : Regex → Char → Regex
  | nothing, _ => nothing
  | empty, _ => nothing
  | rune p, c => if p c then empty else nothing
  | alt r s, c => alt (deriv r c) (deriv s c)
  | cat r s, c =>
    if nullable r then alt (cat (deriv r c) s) (deriv s c) else cat (deriv r c) s
  | star r, c => cat (deriv r c) (star r)

/-- Anchored match of a whole text. -/
def fullMatch (r : Regex) (s : List Char) : Bool :=
  nullable (s.foldl deriv r)

/-- A literal run of runes, such as `acquired-lock`. -/
def literal (w : String) : Regex :=
  w.toList.foldr (fun c r => cat (rune (fun d => d == c)) r) empty

/-- The line feed, the one rune that `.` refuses. -/
def newline : Char := Char.ofNat 10

/-- Go's `.` without the `s` flag: any rune except the line feed. -/
def dot : Regex := rune (fun d => d != newline)

/-- Any rune at all (used for the unanchored search around a pattern). -/
def anyRune : Regex := rune (fun _ => true)

/-- The method `(*Regexp).Match`: an unanchored search, true when some
contiguous part of the message matches the expression. -/
def Match (r : Regex) (message : String) : Bool :=
  fullMatch (cat (star anyRune) (cat r (star anyRune))) message.toList

/-- Denotation of an expression: the set of texts it matches as a whole. -/
def lang : Regex → List Char → Prop
  | nothing, _ => False
  | empty, s => s = []
  | rune p, s => ∃ c, p c = true ∧ s = [c]
  | alt r q, s => lang r s ∨ lang q s
  | cat r q, s => ∃ u v, s = u ++ v ∧ lang r u ∧ lang q v
  | star r, s => ∃ L : List (List Char), s = L.flatten ∧ ∀ u ∈ L, lang r u

end Regex

/-! ## The three matchers of `locket.go` (lines 19-23) -/

/-- The pattern `lock\..*acquired-lock`. -/
def acquiredLock : Regex :=
  .cat (.literal "lock") (.cat (.literal ".") (.cat (.star .dot) (.literal "acquired-lock")))

/-- The pattern `release\..*released-lock`. -/
def releasedLock : Regex :=
  .cat (.literal "release") (.cat (.literal ".") (.cat (.star .dot) (.literal "released-lock")))

/-- The pattern `register-ttl\..*lock-expired`. -/
def expiredLock : Regex :=
  .cat (.literal "register-ttl")
    (.cat (.literal ".") (.cat (.star .dot) (.literal "lock-expired")))

/-- The shape the specification gives for acquired messages, `lock.*acquired-lock`. -/
def specAcquiredShape : Regex :=
  .cat (.literal "lock") (.cat (.star .dot) (.literal "acquired-lock"))

/-- The shape the specification gives for released messages,
`release.*released-lock`. -/
def specReleasedShape : Regex :=
  .cat (.literal "release") (.cat (.star .dot) (.literal "released-lock"))

/-- The shape the specification gives for expired messages,
`register-ttl.*lock-expired`. -/
def specExpiredShape : Regex :=
  .cat (.literal "register-ttl") (.cat (.star .dot) (.literal "lock-expired"))

/-! ## Constants (lines 25-31) -/

def NUM_ROWS_PER_SERVER : Int := 3
def SPACE_BETWEEN_SERVERS : Int := 2
def ACQUIRED_ROW : Int := 0
def RELEASED_ROW : Int := 1
def EXPIRED_ROW : Int := 2

/-! ## Data model -/

/-- A `time.Time`, kept abstract: only copied from an entry to a point. -/
structure Time where
  unixNano : Int
  deriving DecidableEq, Repr

/-- Modelled from the spec: the severity levels of `lager.LogLevel`, a type of
the lager library that the repository imports. -/
inductive LogLevel where
  | DEBUG
  | INFO
  | ERROR
  | FATAL
  deriving DecidableEq, Repr

/-- The fields of `chug.LogEntry` that the command reads or copies. -/
structure LogEntry where
  Timestamp : Time
  LogLevel : LogLevel
  Source : String
  Message : String
  deriving DecidableEq, Repr

/-- A `chug.Entry`: one decoded line, structured (`IsLager`) or not. -/
structure ChugEntry where
  IsLager : Bool
  Raw : List Nat
  Log : LogEntry
  deriving DecidableEq, Repr

/-- The type `Entry` of `locket.go`. -/
structure Entry where
  Data : LogEntry
  Errored : Bool
  deriving DecidableEq, Repr

/-- The type `Entries` of `locket.go`. -/
abbrev Entries := List Entry

/-- The bytes behind an `io.Reader`. -/
abbrev Reader := List Nat

/-- A Go `error` value, by its text. -/
abbrev GoError := String

/-! ## Machine arithmetic -/

/-- Two's complement wrap-around of a 64-bit `int`. -/
def wrap64 (x : Int) : Int :=
  (x + 2 ^ 63) % 2 ^ 64 - 2 ^ 63

/-- How many low bits a magnitude loses to fit a 53-bit significand. -/
def dropBits : Nat → Nat → Nat
  | 0, _ => 0
  | fuel + 1, a => if a < 2 ^ 53 then 0 else 1 + dropBits fuel (a / 2)

/-- Round a magnitude to a multiple of `2^e`, nearest, ties to the even
quotient. -/
def roundNearestEven (a e : Nat) : Nat :=
  let q := a / 2 ^ e
  let r := a % 2 ^ e
  let q1 := if 2 * r > 2 ^ e ∨ (2 * r = 2 ^ e ∧ q % 2 = 1) then q + 1 else q
  q1 * 2 ^ e

/-- The conversion `float64(n)` of a 64-bit integer, as the exact integer value
of the resulting float. -/
def float64OfInt (n : Int) : Int :=
  let a := n.natAbs
  let m : Int := (roundNearestEven a (dropBits 64 a) : Nat)
  if n < 0 then -m else m

/-- The conversion `int(y)` of an integer-valued float: the value itself when
an `int` holds it. Outside that range Go leaves the result to the
implementation; the amd64 conversion instruction then yields the smallest
`int`, `-2^63`, and that is the value taken here. -/
def intOfFloat64 (y : Int) : Int :=
  if -(2 ^ 63) ≤ y ∧ y < 2 ^ 63 then y else -(2 ^ 63)

/-! ## `parse` and `loadAndParseLogFiles` (lines 68-106) -/

/-- The function `parse`: `Chug` stands for `chug.Chug`, by the sequence of
entries it sends on the channel before closing it; the loop keeps the lager
entries and the error result is the constant `nil`. -/
def parse (Chug : Reader → List ChugEntry) (data : Reader) : Entries × Option GoError :=
  let entries := (Chug data).foldl
    (fun (entries : Entries) (entry : ChugEntry) =>
      if !entry.IsLager then entries
      else entries ++ [{ Data := entry.Log, Errored := (entry.Log.LogLevel == LogLevel.ERROR) }])
    []
  (entries, none)

/-- The loop of `loadAndParseLogFiles`, with the slice `servers` built so far;
`ReadFile` stands for `ioutil.ReadFile`. A `nil` slice is the empty list. -/
def loadAndParseLoop (ReadFile : String → Except GoError Reader)
    (Chug : Reader → List ChugEntry) :
    List String → List Entries → List Entries × Option GoError
  | [], servers => (servers, none)
  | f :: rest, servers =>
    match ReadFile f with
    | .error err => ([], some err)
    | .ok data =>
      match parse Chug data with
      | (_, some err) => ([], some err)
      | (s, none) => loadAndParseLoop ReadFile Chug rest (servers ++ [s])

/-- The function `loadAndParseLogFiles`. -/
def loadAndParseLogFiles (ReadFile : String → Except GoError Reader)
    (Chug : Reader → List ChugEntry) (files : List String) :
    List Entries × Option GoError :=
  loadAndParseLoop ReadFile Chug files []

/-! ## The chart (lines 108-169) -/

/-- The local variable `color` of the closure `viridisByType` at the point where
it is scaled by 10 and handed to `chart.Viridis`, for an integer-valued `y`.
Go's `%` truncates towards zero, which is `Int.tmod`. -/
def viridisByType (y : Int) : Int :=
  let color := intOfFloat64 y
  if y > 3 then Int.tmod color (SPACE_BETWEEN_SERVERS * NUM_ROWS_PER_SERVER) else color

/-- The expression `serverNum * NUM_ROWS_PER_SERVER * SPACE_BETWEEN_SERVERS`. -/
def baseYValue (serverNum : Int) : Int :=
  wrap64 (wrap64 (serverNum * NUM_ROWS_PER_SERVER) * SPACE_BETWEEN_SERVERS)

/-- The value `float64(baseYValue+row)` appended to `yvalues`. -/
def lane (serverNum row : Int) : Int :=
  float64OfInt (wrap64 (baseYValue serverNum + row))

/-- One iteration of the loop of `constructDataPoints`. -/
def constructStep (serverNum : Int) (acc : List Time × List Int) (e : Entry) :
    List Time × List Int :=
  let message := e.Data.Message
  if expiredLock.Match message then
    (acc.1 ++ [e.Data.Timestamp], acc.2 ++ [lane serverNum EXPIRED_ROW])
  else if acquiredLock.Match message then
    (acc.1 ++ [e.Data.Timestamp], acc.2 ++ [lane serverNum ACQUIRED_ROW])
  else if releasedLock.Match message then
    (acc.1 ++ [e.Data.Timestamp], acc.2 ++ [lane serverNum RELEASED_ROW])
  else acc

/-- The function `constructDataPoints`: the slices `xvalues` and `yvalues`. -/
def constructDataPoints (serverNum : Int) (data : Entries) : List Time × List Int :=
  data.foldl (constructStep serverNum) ([], [])

/-- The y values of the series that `lockReleaseAndExpiredChart` builds, one
list per server, the server's position in the slice being its index. -/
def chartYValues (servers : List Entries) : List (List Int) :=
  (List.range servers.length).zipWith
    (fun i s => (constructDataPoints (i : Int) s).2) servers

/-! ## Classification, as the specification words it -/

/-- The category offset that the cascade of `constructDataPoints` selects for a
message, if any. -/
def rowOf (message : String) : Option Int :=
  if expiredLock.Match message then some EXPIRED_ROW
  else if acquiredLock.Match message then some ACQUIRED_ROW
  else if releasedLock.Match message then some RELEASED_ROW
  else none

/-- Whether a message matches at least one of the three patterns. -/
def matchesAny (message : String) : Bool :=
  expiredLock.Match message || acquiredLock.Match message || releasedLock.Match message

/-- The points of a source as the loop produces them, entry by entry: one pair
per entry with a category, in input order. -/
def pointsOf (serverNum : Int) (data : Entries) : List (Time × Int) :=
  data.filterMap (fun e =>
    (rowOf e.Data.Message).map (fun row => (e.Data.Timestamp, lane serverNum row)))

/-- The points of a source as the specification lays them out:
`lane = sourceIndex * 6 + categoryOffset`, paired with the time stamp. -/
def specPoints (sourceIndex : Int) (data : Entries) : List (Time × Int) :=
  data.filterMap (fun e =>
    (rowOf e.Data.Message).map (fun row => (e.Data.Timestamp, sourceIndex * 6 + row)))

/-- An entry built from a time stamp and a message (INFO level). -/
def mkEntry (t : Int) (message : String) : Entry :=
  { Data := { Timestamp := ⟨t⟩, LogLevel := LogLevel.INFO, Source := "locket",
              Message := message },
    Errored := false }

/-! ## Correctness of the derivative matcher -/

namespace Regex

theorem lang_nil_iff_nullable (r : Regex) : lang r [] ↔ nullable r = true := by
  induction r with
  | nothing => simp [nullable, lang]
  | empty => simp [nullable, lang]
  | rune p => simp [nullable, lang]
  | alt r s ihr ihs => simp [nullable, lang, ihr, ihs]
  | cat r s ihr ihs =>
    simp only [nullable, lang, Bool.and_eq_true, ← ihr, ← ihs]
    constructor
    · rintro ⟨u, v, h, hu, hv⟩
      obtain ⟨rfl, rfl⟩ := List.append_eq_nil.mp h.symm
      exact ⟨hu, hv⟩
    · rintro ⟨hu, hv⟩
      exact ⟨[], [], rfl, hu, hv⟩
  | star r _ =>
    simp only [nullable, lang, iff_true]
    exact ⟨[], rfl, by simp⟩

theorem star_cons_split (r : Regex) (c : Char) (s : List Char) (L : List (List Char))
    (hL : ∀ u ∈ L, lang r u) (h : c :: s = L.flatten) :
    ∃ (u : List Char) (K : List (List Char)),
      s = u ++ K.flatten ∧ lang r (c :: u) ∧ ∀ w ∈ K, lang r w := by
  induction L with
  | nil => simp at h
  | cons w K ih =>
    cases w with
    | nil =>
      have hK : ∀ u ∈ K, lang r u := fun u hu => hL u (List.mem_cons_of_mem _ hu)
      exact ih hK (by simpa using h)
    | cons d w =>
      simp only [List.flatten_cons, List.cons_append, List.cons.injEq] at h
      obtain ⟨rfl, rfl⟩ := h
      exact ⟨w, K, rfl, hL _ (List.mem_cons_self _ _),
        fun u hu => hL u (List.mem_cons_of_mem _ hu)⟩

theorem lang_deriv (r : Regex) (c : Char) (s : List Char) :
    lang (deriv r c) s ↔ lang r (c :: s) := by
  induction r generalizing s with
  | nothing => simp [deriv, lang]
  | empty => simp [deriv, lang]
  | rune p =>
    by_cases hp : p c = true
    · simp only [deriv, hp, if_true, lang]
      constructor
      · rintro rfl
        exact ⟨c, hp, rfl⟩
      · rintro ⟨d, _, hd⟩
        simpa using (List.cons.inj hd).2
    · simp only [deriv, hp, lang, false_iff]
      rintro ⟨d, hd, h⟩
      obtain ⟨rfl, -⟩ := List.cons.inj h
      exact hp hd
  | alt r q ihr ihq => simp [deriv, lang, ihr, ihq]
  | cat r q ihr ihq =>
    have key : lang (cat r q) (c :: s) ↔
        (∃ u v, s = u ++ v ∧ lang r (c :: u) ∧ lang q v) ∨ (lang r [] ∧ lang q (c :: s)) := by
      simp only [lang]
      constructor
      · rintro ⟨u, v, h, hu, hv⟩
        cases u with
        | nil => exact Or.inr ⟨hu, by simpa [h] using hv⟩
        | cons d u =>
          obtain ⟨rfl, rfl⟩ := List.cons.inj h
          exact Or.inl ⟨u, v, rfl, hu, hv⟩
      · rintro (⟨u, v, rfl, hu, hv⟩ | ⟨hu, hv⟩)
        · exact ⟨c :: u, v, rfl, hu, hv⟩
        · exact ⟨[], c :: s, rfl, hu, hv⟩
    rw [key, lang_nil_iff_nullable]
    by_cases hn : nullable r = true
    · simp only [deriv, hn, if_true, lang, ihr, ihq, true_and]
    · simp only [deriv, hn, lang, ihr, false_and, or_false]
      simp
  | star r ih =>
    simp only [deriv, lang, ih]
    constructor
    · rintro ⟨u, v, rfl, hu, K, rfl, hK⟩
      refine ⟨(c :: u) :: K, by simp, ?_⟩
      intro w hw
      rcases List.mem_cons.mp hw with rfl | hw
      · exact hu
      · exact hK w hw
    · rintro ⟨L, h, hL⟩
      obtain ⟨u, K, hs, hu, hK⟩ := star_cons_split r c s L hL h
      exact ⟨u, K.flatten, hs, hu, K, rfl, hK⟩

theorem fullMatch_iff_lang (r : Regex) (s : List Char) :
    fullMatch r s = true ↔ lang r s := by
  induction s generalizing r with
  | nil => simp [fullMatch, lang_nil_iff_nullable]
  | cons c s ih =>
    have h := ih (deriv r c)
    simp only [fullMatch, List.foldl_cons] at h ⊢
    rw [h, lang_deriv]

theorem lang_literal_aux (w s : List Char) :
    lang (w.foldr (fun c r => cat (rune (fun d => d == c)) r) empty) s ↔ s = w := by
  induction w generalizing s with
  | nil => simp [lang]
  | cons c w ih =>
    simp only [List.foldr_cons, lang, ih, beq_iff_eq]
    constructor
    · rintro ⟨u, v, rfl, ⟨d, rfl, rfl⟩, rfl⟩
      rfl
    · rintro rfl
      exact ⟨[c], w, rfl, ⟨c, rfl, rfl⟩, rfl⟩

theorem lang_literal (w : String) (s : List Char) : lang (literal w) s ↔ s = w.toList :=
  lang_literal_aux w.toList s

theorem lang_star_rune (p : Char → Bool) (s : List Char) :
    lang (star (rune p)) s ↔ ∀ c ∈ s, p c = true := by
  simp only [lang]
  constructor
  · rintro ⟨L, rfl, hL⟩ c hc
    obtain ⟨u, hu, hcu⟩ := List.mem_flatten.mp hc
    obtain ⟨d, hd, rfl⟩ := hL u hu
    simpa [List.mem_singleton.mp hcu] using hd
  · intro h
    refine ⟨s.map (fun c => [c]), ?_, ?_⟩
    · clear h
      induction s with
      | nil => rfl
      | cons c s ih => simp [← ih]
    · intro u hu
      obtain ⟨c, hc, rfl⟩ := List.mem_map.mp hu
      exact ⟨c, h c hc, rfl⟩

theorem lang_star_dot (s : List Char) : lang (star dot) s ↔ newline ∉ s := by
  rw [dot, lang_star_rune]
  constructor
  · intro h hn
    simpa using h newline hn
  · intro h c hc
    simp only [bne_iff_ne, ne_eq]
    rintro rfl
    exact h hc

theorem lang_star_anyRune (s : List Char) : lang (star anyRune) s := by
  rw [anyRune, lang_star_rune]
  intros
  rfl

theorem lang_cat (r q : Regex) (s : List Char) :
    lang (cat r q) s ↔ ∃ u v, s = u ++ v ∧ lang r u ∧ lang q v := Iff.rfl

/-- An unanchored search succeeds exactly when some contiguous part of the
message is in the language of the expression. -/
theorem Match_iff (r : Regex) (message : String) :
    Match r message = true ↔
      ∃ pre mid post, message.toList = pre ++ mid ++ post ∧ lang r mid := by
  rw [Match, fullMatch_iff_lang]
  simp only [lang_cat]
  constructor
  · rintro ⟨pre, v, h, -, mid, post, rfl, hmid, -⟩
    exact ⟨pre, mid, post, by rw [h, List.append_assoc], hmid⟩
  · rintro ⟨pre, mid, post, h, hmid⟩
    exact ⟨pre, mid ++ post, by rw [h, List.append_assoc], lang_star_anyRune pre, mid, post,
      rfl, hmid, lang_star_anyRune post⟩

/-- The language of `a\.` followed by `.*` and `b`. -/
theorem lang_dotted (a b : String) (s : List Char) :
    lang (cat (literal a) (cat (literal ".") (cat (star dot) (literal b)))) s ↔
      ∃ mid, s = a.toList ++ ".".toList ++ mid ++ b.toList ∧ newline ∉ mid := by
  simp only [lang_cat, lang_literal, lang_star_dot]
  constructor
  · rintro ⟨_, _, rfl, rfl, _, _, rfl, rfl, mid, _, rfl, hmid, rfl⟩
    exact ⟨mid, by simp only [List.append_assoc], hmid⟩
  · rintro ⟨mid, rfl, hmid⟩
    exact ⟨_, _, by simp only [List.append_assoc], rfl, _, _, rfl, rfl, mid, _, rfl, hmid, rfl⟩

/-- The language of `a` followed by `.*` and `b` (no literal dot). -/
theorem lang_loose (a b : String) (s : List Char) :
    lang (cat (literal a) (cat (star dot) (literal b))) s ↔
      ∃ mid, s = a.toList ++ mid ++ b.toList ∧ newline ∉ mid := by
  simp only [lang_cat, lang_literal, lang_star_dot]
  constructor
  · rintro ⟨_, _, rfl, rfl, mid, _, rfl, hmid, rfl⟩
    exact ⟨mid, by simp only [List.append_assoc], hmid⟩
  · rintro ⟨mid, rfl, hmid⟩
    exact ⟨_, _, by simp only [List.append_assoc], rfl, mid, _, rfl, hmid, rfl⟩

end Regex

/-! ## Machine arithmetic: where it is exact -/

theorem wrap64_eq_self (x : Int) (h1 : -(2 ^ 63) ≤ x) (h2 : x < 2 ^ 63) : wrap64 x = x := by
  unfold wrap64
  omega

theorem dropBits_small (fuel a : Nat) (h : a < 2 ^ 53) : dropBits (fuel + 1) a = 0 := by
  rw [dropBits, if_pos h]

theorem dropBits_next (fuel a : Nat) (h1 : 2 ^ 53 ≤ a) (h2 : a < 2 ^ 54) :
    dropBits (fuel + 2) a = 1 := by
  have h3 : ¬ a < 2 ^ 53 := by omega
  have h4 : a / 2 < 2 ^ 53 := by omega
  rw [dropBits, if_neg h3, dropBits_small fuel _ h4]

/-- The fuel of `float64OfInt` is enough: after dropping the bits, what is left
of a magnitude below `2^(53+fuel)` fits the 53-bit significand. -/
theorem dropBits_fits (fuel a : Nat) (h : a < 2 ^ (53 + fuel)) :
    a / 2 ^ dropBits fuel a < 2 ^ 53 := by
  induction fuel generalizing a with
  | zero => simpa [dropBits] using h
  | succ fuel ih =>
    by_cases hs : a < 2 ^ 53
    · rw [dropBits_small fuel a hs]
      simpa using hs
    · have h2 : a / 2 < 2 ^ (53 + fuel) := by
        have : 2 ^ (53 + (fuel + 1)) = 2 ^ (53 + fuel) * 2 := by rw [← Nat.add_assoc, pow_succ]
        rw [this] at h
        exact Nat.div_lt_of_lt_mul (by rw [Nat.mul_comm]; exact h)
      rw [dropBits, if_neg hs, pow_add, pow_one, ← Nat.div_div_eq_div_mul]
      exact ih (a / 2) h2

theorem roundNearestEven_zero (a : Nat) : roundNearestEven a 0 = a := by
  have h1 : a % 1 = 0 := Nat.mod_one a
  simp [roundNearestEven, h1]

theorem roundNearestEven_one (a : Nat) :
    (a % 2 = 0 → roundNearestEven a 1 = a) ∧
      a ≤ roundNearestEven a 1 + 1 ∧ roundNearestEven a 1 ≤ a + 1 := by
  simp only [roundNearestEven, pow_one]
  split_ifs <;> omega

/-- Below `2^54` the conversion moves an integer by at most one and keeps an
even integer. -/
theorem float64OfInt_near (n : Int) (h0 : 0 ≤ n) (h1 : n < 2 ^ 54) :
    (n % 2 = 0 → float64OfInt n = n) ∧ n - 1 ≤ float64OfInt n ∧ float64OfInt n ≤ n + 1 := by
  obtain ⟨a, rfl⟩ := Int.eq_ofNat_of_zero_le h0
  have ha : a < 2 ^ 54 := by exact_mod_cast h1
  have hneg : ¬ ((a : Int) < 0) := by omega
  simp only [float64OfInt, Int.natAbs_ofNat, if_neg hneg]
  by_cases hs : a < 2 ^ 53
  · rw [show (64 : Nat) = 63 + 1 from rfl, dropBits_small 63 a hs, roundNearestEven_zero]
    omega
  · rw [show (64 : Nat) = 62 + 2 from rfl, dropBits_next 62 a (by omega) ha]
    obtain ⟨e1, e2, e3⟩ := roundNearestEven_one a
    refine ⟨fun h => ?_, by omega, by omega⟩
    have : a % 2 = 0 := by omega
    rw [e1 this]

/-- Up to `2^53` the conversion is exact. -/
theorem float64OfInt_exact (n : Int) (h0 : 0 ≤ n) (h1 : n ≤ 2 ^ 53) : float64OfInt n = n := by
  rcases lt_or_eq_of_le h1 with h | h
  · obtain ⟨a, rfl⟩ := Int.eq_ofNat_of_zero_le h0
    have ha : a < 2 ^ 53 := by exact_mod_cast h
    have hneg : ¬ ((a : Int) < 0) := by omega
    simp only [float64OfInt, Int.natAbs_ofNat, if_neg hneg]
    rw [show (64 : Nat) = 63 + 1 from rfl, dropBits_small 63 a ha, roundNearestEven_zero]
  · subst h
    decide

theorem baseYValue_eq (i : Int) (h0 : 0 ≤ i) (h1 : i * 6 + 2 < 2 ^ 63) :
    baseYValue i = i * 6 := by
  unfold baseYValue NUM_ROWS_PER_SERVER SPACE_BETWEEN_SERVERS
  rw [wrap64_eq_self (i * 3) (by omega) (by omega), wrap64_eq_self (i * 3 * 2) (by omega) (by omega)]
  omega

theorem lane_eq_float (i row : Int) (h0 : 0 ≤ i) (h1 : i * 6 + 2 < 2 ^ 63)
    (hr0 : 0 ≤ row) (hr2 : row ≤ 2) : lane i row = float64OfInt (i * 6 + row) := by
  unfold lane
  rw [baseYValue_eq i h0 h1, wrap64_eq_self _ (by omega) (by omega)]

/-- Lanes are exact while `i*6+2` is at most `2^53`. -/
theorem lane_exact (i row : Int) (h0 : 0 ≤ i) (h1 : i * 6 + 2 ≤ 2 ^ 53)
    (hr0 : 0 ≤ row) (hr2 : row ≤ 2) : lane i row = i * 6 + row := by
  rw [lane_eq_float i row h0 (by omega) hr0 hr2, float64OfInt_exact _ (by omega) (by omega)]

/-- Lanes stay in the lower half of their band while `i*6+2` is below `2^54`. -/
theorem lane_band (i row : Int) (h0 : 0 ≤ i) (h1 : i * 6 + 2 < 2 ^ 54)
    (hr0 : 0 ≤ row) (hr2 : row ≤ 2) : i * 6 ≤ lane i row ∧ lane i row < i * 6 + 3 := by
  rw [lane_eq_float i row h0 (by omega) hr0 hr2]
  obtain ⟨e1, e2, e3⟩ := float64OfInt_near (i * 6 + row) (by omega) (by omega)
  have hcases : row = 0 ∨ row = 1 ∨ row = 2 := by omega
  rcases hcases with rfl | rfl | rfl
  · rw [e1 (by omega)]; omega
  · omega
  · rw [e1 (by omega)]; omega

/-! ## The loop of `constructDataPoints` -/

theorem rowOf_range (m : String) (row : Int) (h : rowOf m = some row) : 0 ≤ row ∧ row ≤ 2 := by
  unfold rowOf EXPIRED_ROW ACQUIRED_ROW RELEASED_ROW at h
  split_ifs at h <;> simp at h <;> omega

theorem constructStep_eq (i : Int) (acc : List Time × List Int) (e : Entry) :
    constructStep i acc e =
      (acc.1 ++ (pointsOf i [e]).map Prod.fst, acc.2 ++ (pointsOf i [e]).map Prod.snd) := by
  unfold constructStep pointsOf rowOf
  by_cases h1 : expiredLock.Match e.Data.Message = true
  · simp [h1]
  · by_cases h2 : acquiredLock.Match e.Data.Message = true
    · simp [h1, h2]
    · by_cases h3 : releasedLock.Match e.Data.Message = true
      · simp [h1, h2, h3]
      · simp [h1, h2, h3]

theorem pointsOf_cons (i : Int) (e : Entry) (data : Entries) :
    pointsOf i (e :: data) = pointsOf i [e] ++ pointsOf i data := by
  have h := List.filterMap_append [e] data
    (fun e => (rowOf e.Data.Message).map (fun row => (e.Data.Timestamp, lane i row)))
  simpa [pointsOf] using h

theorem foldl_constructStep (i : Int) (data : Entries) (acc : List Time × List Int) :
    data.foldl (constructStep i) acc =
      (acc.1 ++ (pointsOf i data).map Prod.fst, acc.2 ++ (pointsOf i data).map Prod.snd) := by
  induction data generalizing acc with
  | nil => simp [pointsOf]
  | cons e data ih =>
    rw [List.foldl_cons, ih, constructStep_eq, pointsOf_cons i e data]
    simp only [List.map_append, List.append_assoc]

theorem constructDataPoints_eq (i : Int) (data : Entries) :
    constructDataPoints i data = (pointsOf i data).unzip := by
  rw [constructDataPoints, foldl_constructStep, List.unzip_eq_map]
  simp

theorem pointsOf_eq_specPoints (i : Int) (data : Entries) (h0 : 0 ≤ i)
    (h1 : i * 6 + 2 ≤ 2 ^ 53) : pointsOf i data = specPoints i data := by
  unfold pointsOf specPoints
  apply List.filterMap_congr
  intro e _
  cases hr : rowOf e.Data.Message with
  | none => rfl
  | some row =>
    obtain ⟨r0, r2⟩ := rowOf_range _ _ hr
    simp [lane_exact i row h0 h1 r0 r2]

theorem mem_ys_iff (i : Int) (data : Entries) (y : Int) :
    y ∈ (constructDataPoints i data).2 ↔
      ∃ e ∈ data, ∃ row, rowOf e.Data.Message = some row ∧ y = lane i row := by
  rw [constructDataPoints_eq, List.unzip_eq_map]
  show y ∈ (pointsOf i data).map Prod.snd ↔ _
  rw [List.mem_map]
  constructor
  · rintro ⟨⟨t, z⟩, hmem, rfl⟩
    rw [pointsOf, List.mem_filterMap] at hmem
    obtain ⟨e, he, h⟩ := hmem
    cases hr : rowOf e.Data.Message with
    | none => simp [hr] at h
    | some row =>
      simp only [hr, Option.map_some', Option.some.injEq, Prod.mk.injEq] at h
      exact ⟨e, he, row, hr, h.2.symm⟩
  · rintro ⟨e, he, row, hr, rfl⟩
    refine ⟨(e.Data.Timestamp, lane i row), ?_, rfl⟩
    rw [pointsOf, List.mem_filterMap]
    exact ⟨e, he, by simp [hr]⟩

/-! ## Lanes: `constructDataPoints` -/

/-- C1, as the code has it: refuted as stated. Source 1501199875790166 has
`i*6+2` far below the overflow of the 64-bit `int`, its released entry has
offset 1, and the y value emitted is `9007199254740996 = 2^53+4`, not
`i*6+1 = 9007199254740997`: a `float64` cannot hold that odd integer and the
conversion rounds it. -/
theorem lane_formula_fails_above_2_pow_53 :
    (0 : Int) ≤ 1501199875790166 ∧ (1501199875790166 : Int) * 6 + 2 < 2 ^ 63 ∧
    rowOf "release.foo.released-lock" = some 1 ∧
    constructDataPoints 1501199875790166 [mkEntry 5 "release.foo.released-lock"]
      = ([⟨5⟩], [9007199254740996]) ∧
    (9007199254740996 : Int) ≠ 1501199875790166 * 6 + 1 := by
  decide

/-- C1, amended: for a source index `i` with `0 ≤ i` and `i*6+2 ≤ 2^53`, the
points `constructDataPoints` returns are, in input order, one pair per entry
with a category, `(time stamp of the entry, i*6 + offset)`, where the offset is
0 for acquired, 1 for released, 2 for expired (the cascade of the loop); the
three messages of scenario A in source 0 give the y values 0, 1, 2. -/
theorem constructDataPoints_lane_formula (i : Int) (entries : Entries)
    (h0 : 0 ≤ i) (h1 : i * 6 + 2 ≤ 2 ^ 53) :
    constructDataPoints i entries = (specPoints i entries).unzip ∧
    (∀ m, rowOf m = some 0 ↔ (expiredLock.Match m = false ∧ acquiredLock.Match m = true)) ∧
    (∀ m, rowOf m = some 1 ↔ (expiredLock.Match m = false ∧ acquiredLock.Match m = false ∧
      releasedLock.Match m = true)) ∧
    (∀ m, rowOf m = some 2 ↔ expiredLock.Match m = true) ∧
    (∀ t1 t2 t3 : Int,
      constructDataPoints 0 [mkEntry t1 "lock.foo.acquired-lock",
        mkEntry t2 "release.foo.released-lock", mkEntry t3 "register-ttl.foo.lock-expired"]
        = ([⟨t1⟩, ⟨t2⟩, ⟨t3⟩], [0, 1, 2])) := by
  refine ⟨?_, ?_, ?_, ?_, ?_⟩
  · rw [constructDataPoints_eq, pointsOf_eq_specPoints i entries h0 h1]
  · intro m
    unfold rowOf EXPIRED_ROW ACQUIRED_ROW RELEASED_ROW
    cases expiredLock.Match m <;> cases acquiredLock.Match m <;>
      cases releasedLock.Match m <;> simp
  · intro m
    unfold rowOf EXPIRED_ROW ACQUIRED_ROW RELEASED_ROW
    cases expiredLock.Match m <;> cases acquiredLock.Match m <;>
      cases releasedLock.Match m <;> simp
  · intro m
    unfold rowOf EXPIRED_ROW ACQUIRED_ROW RELEASED_ROW
    cases expiredLock.Match m <;> cases acquiredLock.Match m <;>
      cases releasedLock.Match m <;> simp
  · intro t1 t2 t3
    have ha : rowOf "lock.foo.acquired-lock" = some 0 := by decide
    have hr : rowOf "release.foo.released-lock" = some 1 := by decide
    have he : rowOf "register-ttl.foo.lock-expired" = some 2 := by decide
    have l0 : lane 0 0 = 0 := by decide
    have l1 : lane 0 1 = 1 := by decide
    have l2 : lane 0 2 = 2 := by decide
    rw [constructDataPoints_eq]
    simp [pointsOf, mkEntry, ha, hr, he, l0, l1, l2]

/-- Witness of C1: source 1 with the three messages of scenario A. -/
theorem constructDataPoints_lane_formula_witness :
    (0 : Int) ≤ 1 ∧ (1 : Int) * 6 + 2 ≤ 2 ^ 53 ∧
    constructDataPoints 1 [mkEntry 10 "lock.foo.acquired-lock",
        mkEntry 20 "release.foo.released-lock", mkEntry 30 "register-ttl.foo.lock-expired"]
      = ([⟨10⟩, ⟨20⟩, ⟨30⟩], [6, 7, 8]) :=
  ⟨by decide, by decide,
    (constructDataPoints_lane_formula 1 [mkEntry 10 "lock.foo.acquired-lock",
        mkEntry 20 "release.foo.released-lock", mkEntry 30 "register-ttl.foo.lock-expired"]
      (by decide) (by decide)).1.trans (by decide)⟩

/-- C2: an entry yields at most one point, chosen by the precedence expired,
acquired, released: a message matching the expired pattern yields only the
expired lane (offset 2) whatever else it matches, one matching acquired but not
expired yields only the acquired lane (offset 0) even if it also matches
released, one matching released alone yields the released lane (offset 1), one
matching nothing yields no point; and the points of a list are those of its
entries, one entry after the other. -/
theorem constructDataPoints_precedence (i : Int) (e : Entry) :
    (constructDataPoints i [e]).1.length ≤ 1 ∧ (constructDataPoints i [e]).2.length ≤ 1 ∧
    (expiredLock.Match e.Data.Message = true →
      constructDataPoints i [e] = ([e.Data.Timestamp], [lane i 2])) ∧
    (expiredLock.Match e.Data.Message = false → acquiredLock.Match e.Data.Message = true →
      constructDataPoints i [e] = ([e.Data.Timestamp], [lane i 0])) ∧
    (expiredLock.Match e.Data.Message = false → acquiredLock.Match e.Data.Message = false →
      releasedLock.Match e.Data.Message = true →
      constructDataPoints i [e] = ([e.Data.Timestamp], [lane i 1])) ∧
    (expiredLock.Match e.Data.Message = false → acquiredLock.Match e.Data.Message = false →
      releasedLock.Match e.Data.Message = false → constructDataPoints i [e] = ([], [])) ∧
    (∀ rest : Entries, constructDataPoints i (e :: rest) =
      ((constructDataPoints i [e]).1 ++ (constructDataPoints i rest).1,
       (constructDataPoints i [e]).2 ++ (constructDataPoints i rest).2)) := by
  have hstep : constructDataPoints i [e] = constructStep i ([], []) e := rfl
  refine ⟨?_, ?_, ?_, ?_, ?_, ?_, ?_⟩
  · rw [constructDataPoints_eq, List.unzip_eq_map]
    simpa using List.length_filterMap_le
      (fun e => (rowOf e.Data.Message).map (fun row => (e.Data.Timestamp, lane i row))) [e]
  · rw [constructDataPoints_eq, List.unzip_eq_map]
    simpa using List.length_filterMap_le
      (fun e => (rowOf e.Data.Message).map (fun row => (e.Data.Timestamp, lane i row))) [e]
  · intro h1
    rw [hstep]; unfold constructStep EXPIRED_ROW
    simp [h1]
  · intro h1 h2
    rw [hstep]; unfold constructStep ACQUIRED_ROW
    simp [h1, h2]
  · intro h1 h2 h3
    rw [hstep]; unfold constructStep RELEASED_ROW
    simp [h1, h2, h3]
  · intro h1 h2 h3
    rw [hstep]; unfold constructStep
    simp [h1, h2, h3]
  · intro rest
    rw [constructDataPoints_eq, constructDataPoints_eq, constructDataPoints_eq,
      pointsOf_cons i e rest]
    simp only [List.unzip_eq_map, List.map_append]

/-- Witness of C2: a message that matches the expired and the acquired
pattern yields the single lane 2 in source 0, and one that matches the acquired
and the released pattern but not the expired one yields the single lane 0. -/
theorem constructDataPoints_precedence_witness :
    (expiredLock.Match "register-ttl.lock.acquired-lock-expired" = true ∧
      acquiredLock.Match "register-ttl.lock.acquired-lock-expired" = true ∧
      constructDataPoints 0 [mkEntry 7 "register-ttl.lock.acquired-lock-expired"]
        = ([⟨7⟩], [2])) ∧
    (expiredLock.Match "release.lock.acquired-lock.released-lock" = false ∧
      acquiredLock.Match "release.lock.acquired-lock.released-lock" = true ∧
      releasedLock.Match "release.lock.acquired-lock.released-lock" = true ∧
      constructDataPoints 0 [mkEntry 8 "release.lock.acquired-lock.released-lock"]
        = ([⟨8⟩], [0])) :=
  ⟨⟨by decide, by decide,
      ((constructDataPoints_precedence 0
        (mkEntry 7 "register-ttl.lock.acquired-lock-expired")).2.2.1 (by decide)).trans
        (by decide)⟩,
    ⟨by decide, by decide, by decide,
      ((constructDataPoints_precedence 0
        (mkEntry 8 "release.lock.acquired-lock.released-lock")).2.2.2.1
          (by decide) (by decide)).trans (by decide)⟩⟩

/-- C3: the time stamps returned are those of the entries whose message
matches at least one of the three patterns, in input order; the two slices have
the same length, never more than the input, and as many as the input exactly
when every entry matches a pattern. -/
theorem constructDataPoints_timestamps (i : Int) (data : Entries) :
    (constructDataPoints i data).1 =
        (data.filter (fun e => matchesAny e.Data.Message)).map (fun e => e.Data.Timestamp) ∧
    (constructDataPoints i data).2.length = (constructDataPoints i data).1.length ∧
    (constructDataPoints i data).1.length ≤ data.length ∧
    ((constructDataPoints i data).1.length = data.length ↔
      ∀ e ∈ data, matchesAny e.Data.Message = true) := by
  have hx : (constructDataPoints i data).1 =
      (data.filter (fun e => matchesAny e.Data.Message)).map (fun e => e.Data.Timestamp) := by
    rw [constructDataPoints_eq, List.unzip_eq_map]
    show (pointsOf i data).map Prod.fst = _
    induction data with
    | nil => rfl
    | cons e data ih =>
      rw [pointsOf_cons, List.map_append, ih]
      by_cases h1 : expiredLock.Match e.Data.Message = true
      · simp [pointsOf, rowOf, matchesAny, List.filter_cons, h1]
      · by_cases h2 : acquiredLock.Match e.Data.Message = true
        · simp [pointsOf, rowOf, matchesAny, List.filter_cons, h1, h2]
        · by_cases h3 : releasedLock.Match e.Data.Message = true
          · simp [pointsOf, rowOf, matchesAny, List.filter_cons, h1, h2, h3]
          · simp [pointsOf, rowOf, matchesAny, List.filter_cons, h1, h2, h3]
  refine ⟨hx, ?_, ?_, ?_⟩
  · rw [constructDataPoints_eq, List.unzip_eq_map]
    simp
  · rw [hx, List.length_map]
    exact List.length_filter_le _ _
  · rw [hx, List.length_map]
    exact List.filter_length_eq_length

/-! ## Bands -/

theorem mem_ys_band (i : Int) (entries : Entries) (h0 : 0 ≤ i) (h1 : i * 6 + 2 < 2 ^ 54)
    (y : Int) (hy : y ∈ (constructDataPoints i entries).2) : i * 6 ≤ y ∧ y < i * 6 + 3 := by
  obtain ⟨e, -, row, hr, rfl⟩ := (mem_ys_iff i entries y).mp hy
  obtain ⟨r0, r2⟩ := rowOf_range _ _ hr
  exact lane_band i row h0 h1 r0 r2

/-- C4, as the code has it: refuted as stated. Source 3002399751580331 has
`i*6 = 2^54+2`, no overflow of `int`, and its acquired entry gets the y value
`2^54`, below `i*6`: the tie `2^54+2` rounds to the even significand. -/
theorem lane_leaves_band_above_2_pow_54 :
    (0 : Int) ≤ 3002399751580331 ∧ (3002399751580331 : Int) * 6 + 2 < 2 ^ 63 ∧
    constructDataPoints 3002399751580331 [mkEntry 5 "lock.foo.acquired-lock"]
      = ([⟨5⟩], [18014398509481984]) ∧
    (18014398509481984 : Int) < 3002399751580331 * 6 := by
  decide

/-- C4, amended: for a source index `i` with `0 ≤ i` and `i*6+2 < 2^54`, every
y value of `constructDataPoints i entries` lies in `[i*6, i*6+3)`, hence in the
band `[i*6, (i+1)*6)`. -/
theorem constructDataPoints_band (i : Int) (entries : Entries)
    (h0 : 0 ≤ i) (h1 : i * 6 + 2 < 2 ^ 54) :
    ∀ y ∈ (constructDataPoints i entries).2,
      (i * 6 ≤ y ∧ y < i * 6 + 3) ∧ (i * 6 ≤ y ∧ y < (i + 1) * 6) := by
  intro y hy
  obtain ⟨b1, b2⟩ := mem_ys_band i entries h0 h1 y hy
  omega

/-- Witness of C4: source 2 with an expired and a released entry. -/
theorem constructDataPoints_band_witness :
    (0 : Int) ≤ 2 ∧ (2 : Int) * 6 + 2 < 2 ^ 54 ∧
    (14 : Int) ∈ (constructDataPoints 2 [mkEntry 1 "register-ttl.a.lock-expired",
      mkEntry 2 "release.a.released-lock"]).2 ∧
    (((2 : Int) * 6 ≤ 14 ∧ (14 : Int) < 2 * 6 + 3) ∧ ((2 : Int) * 6 ≤ 14 ∧ (14 : Int) < (2 + 1) * 6)) :=
  ⟨by decide, by decide, by decide,
    constructDataPoints_band 2 [mkEntry 1 "register-ttl.a.lock-expired",
      mkEntry 2 "release.a.released-lock"] (by decide) (by decide) 14 (by decide)⟩

/-- C5, as the code has it: refuted as stated. Without overflow, the distinct
sources 3002399751580334 and 3002399751580335 share the y value `2^54+24`: the
expired lane `2^54+22` of the first and the acquired lane `2^54+26` of the
second both round to it. With overflow, source 3074457345618258603 (an `int`,
`3*i = 2^63+1`) has the base value 2, so its acquired lane is the expired lane 2
of source 0. -/
theorem bands_overlap_above_2_pow_54 :
    ((3002399751580334 : Int) ≠ 3002399751580335 ∧
      (3002399751580335 : Int) * 6 + 2 < 2 ^ 63 ∧
      (18014398509482008 : Int) ∈
        (constructDataPoints 3002399751580334 [mkEntry 5 "register-ttl.foo.lock-expired"]).2 ∧
      (18014398509482008 : Int) ∈
        (constructDataPoints 3002399751580335 [mkEntry 5 "lock.foo.acquired-lock"]).2) ∧
    ((3074457345618258603 : Int) ≠ 0 ∧ (3074457345618258603 : Int) < 2 ^ 63 ∧
      (2 : Int) ∈
        (constructDataPoints 3074457345618258603 [mkEntry 5 "lock.foo.acquired-lock"]).2 ∧
      (2 : Int) ∈ (constructDataPoints 0 [mkEntry 5 "register-ttl.foo.lock-expired"]).2) := by
  decide

/-- C5, amended: for distinct source indices `i ≠ j`, both non-negative with
`i*6+2 < 2^54` and `j*6+2 < 2^54`, and any two lists of entries, no y value of
`constructDataPoints i` is a y value of `constructDataPoints j`; for source
indices with `i*6+2 ≤ 2^53` and `j*6+2 ≤ 2^53` the map from (source index,
category offset) to the lane is injective; and one acquired event in source 0
and one in source 1 get the lanes 0 and 6. -/
theorem constructDataPoints_bands_disjoint (i j : Int) (hij : i ≠ j)
    (hi0 : 0 ≤ i) (hi : i * 6 + 2 < 2 ^ 54) (hj0 : 0 ≤ j) (hj : j * 6 + 2 < 2 ^ 54) :
    (∀ (d1 d2 : Entries), ∀ y ∈ (constructDataPoints i d1).2,
      y ∉ (constructDataPoints j d2).2) ∧
    (∀ (a b r s : Int), 0 ≤ a → a * 6 + 2 ≤ 2 ^ 53 → 0 ≤ b → b * 6 + 2 ≤ 2 ^ 53 →
      0 ≤ r → r ≤ 2 → 0 ≤ s → s ≤ 2 → lane a r = lane b s → a = b ∧ r = s) ∧
    (∀ t u : Int, chartYValues [[mkEntry t "lock.foo.acquired-lock"],
      [mkEntry u "lock.bar.acquired-lock"]] = [[0], [6]]) := by
  refine ⟨?_, ?_, ?_⟩
  · intro d1 d2 y hy1 hy2
    obtain ⟨a1, a2⟩ := mem_ys_band i d1 hi0 hi y hy1
    obtain ⟨b1, b2⟩ := mem_ys_band j d2 hj0 hj y hy2
    apply hij
    omega
  · intro a b r s ha0 ha hb0 hb hr0 hr2 hs0 hs2 h
    rw [lane_exact a r ha0 ha hr0 hr2, lane_exact b s hb0 hb hs0 hs2] at h
    constructor <;> omega
  · intro t u
    have ha : rowOf "lock.foo.acquired-lock" = some 0 := by decide
    have hb : rowOf "lock.bar.acquired-lock" = some 0 := by decide
    have l0 : lane 0 0 = 0 := by decide
    have l1 : lane 1 0 = 6 := by decide
    simp [chartYValues, List.range_succ, constructDataPoints_eq, pointsOf, mkEntry, ha, hb, l0, l1]

/-- Witness of C5: sources 0 and 1. -/
theorem constructDataPoints_bands_disjoint_witness :
    (0 : Int) ≠ 1 ∧ (0 : Int) * 6 + 2 < 2 ^ 54 ∧ (1 : Int) * 6 + 2 < 2 ^ 54 ∧
    chartYValues [[mkEntry 3 "lock.foo.acquired-lock"], [mkEntry 4 "lock.bar.acquired-lock"]]
      = [[0], [6]] :=
  ⟨by decide, by decide, by decide,
    (constructDataPoints_bands_disjoint 0 1 (by decide) (by decide) (by decide) (by decide)
      (by decide)).2.2 3 4⟩

/-! ## Colours -/

theorem viridisByType_of_range (y : Int) (h1 : -(2 ^ 63) ≤ y) (h2 : y < 2 ^ 63) :
    viridisByType y = if y ≤ 3 then y else y % 6 := by
  have hr : intOfFloat64 y = y := by
    unfold intOfFloat64
    rw [if_pos ⟨h1, h2⟩]
  unfold viridisByType SPACE_BETWEEN_SERVERS NUM_ROWS_PER_SERVER
  rw [hr]
  by_cases h : y ≤ 3
  · have h3 : ¬ y > 3 := by omega
    simp [h, h3]
  · have h3 : y > 3 := by omega
    have ht : Int.tmod y 6 = y % 6 := Int.tmod_eq_emod (by omega) (by omega)
    simp [h, h3, ht]

/-- C6, as the code has it: refuted as stated. Source 1537228672809129300 has
`i*6+2 = 2^63-6`, no overflow of `int`, and its acquired lane `2^63-8` rounds
to the `float64` value `2^63`, which no `int` holds: `int(y)` is then `-2^63`
and the colour index is `-2`, not `2^63 mod 6 = 2`. -/
theorem colour_index_wrong_at_2_pow_63 :
    (0 : Int) ≤ 1537228672809129300 ∧ (1537228672809129300 : Int) * 6 + 2 < 2 ^ 63 ∧
    (9223372036854775808 : Int) ∈
      (constructDataPoints 1537228672809129300 [mkEntry 5 "lock.foo.acquired-lock"]).2 ∧
    ¬ ((9223372036854775808 : Int) ≤ 3) ∧
    viridisByType 9223372036854775808 = -2 ∧
    (9223372036854775808 : Int) % 6 = 2 := by
  decide

/-- C6, amended: for every integer-valued lane `y` that an `int` holds
(`-2^63 ≤ y < 2^63`), the colour index of `viridisByType` is `y` itself when
`y ≤ 3` and `y mod 6` otherwise; so it is `y` for `y` in 0, 1, 2, 3 and
`4 mod 6 = 4` for `y = 4`. -/
theorem viridisByType_colour_index (y : Int) (h1 : -(2 ^ 63) ≤ y) (h2 : y < 2 ^ 63) :
    viridisByType y = (if y ≤ 3 then y else y % 6) ∧
    viridisByType 0 = 0 ∧ viridisByType 1 = 1 ∧ viridisByType 2 = 2 ∧
    viridisByType 3 = 3 ∧ viridisByType 4 = 4 :=
  ⟨viridisByType_of_range y h1 h2, by decide, by decide, by decide, by decide, by decide⟩

/-- Witness of C6: lane 8, the expired lane of source 1, has colour index 2. -/
theorem viridisByType_colour_index_witness :
    -(2 ^ 63) ≤ (8 : Int) ∧ (8 : Int) < 2 ^ 63 ∧ viridisByType 8 = 2 :=
  ⟨by decide, by decide,
    (viridisByType_colour_index 8 (by decide) (by decide)).1.trans (by decide)⟩

/-- C10, as the code has it: refuted as stated. Without overflow, in source
1501199875790166 the released lane is `2^53+4` (the odd `i*6+1` is not a
`float64`), whose colour index is `(2^53+4) mod 6 = 0`, not the released
offset 1. With overflow, source 3074457345618258603 (an `int`, `3*i = 2^63+1`)
has the base value 2, so its acquired lane 2 has colour index 2, not 0. -/
theorem colour_index_differs_above_2_pow_53 :
    ((0 : Int) ≤ 1501199875790166 ∧ (1501199875790166 : Int) * 6 + 2 < 2 ^ 63 ∧
      rowOf "release.bar.released-lock" = some 1 ∧
      (constructDataPoints 1501199875790166 [mkEntry 9 "release.bar.released-lock"]).2.map
        viridisByType = [0]) ∧
    ((0 : Int) ≤ 3074457345618258603 ∧ (3074457345618258603 : Int) < 2 ^ 63 ∧
      rowOf "lock.bar.acquired-lock" = some 0 ∧
      (constructDataPoints 3074457345618258603 [mkEntry 9 "lock.bar.acquired-lock"]).2.map
        viridisByType = [2]) := by
  decide

/-- C10, amended: for a source index `i` with `0 ≤ i` and `i*6+2 ≤ 2^53`, the
colour index of the lane that `constructDataPoints` assigns to an entry is the
category offset of the entry alone (0 acquired, 1 released, 2 expired), the
same in every such source. -/
theorem colour_index_is_offset (i : Int) (entries : Entries)
    (h0 : 0 ≤ i) (h1 : i * 6 + 2 ≤ 2 ^ 53) :
    (constructDataPoints i entries).2.map viridisByType =
        entries.filterMap (fun e => rowOf e.Data.Message) ∧
    (∀ row : Int, 0 ≤ row → row ≤ 2 → viridisByType (lane i row) = row) := by
  have key : ∀ row : Int, 0 ≤ row → row ≤ 2 → viridisByType (lane i row) = row := by
    intro row r0 r2
    rw [lane_exact i row h0 h1 r0 r2, viridisByType_of_range _ (by omega) (by omega)]
    by_cases hz : i = 0
    · subst hz
      have : (0 : Int) * 6 + row ≤ 3 := by omega
      rw [if_pos this]
      omega
    · have : ¬ (i * 6 + row ≤ 3) := by omega
      rw [if_neg this]
      omega
  refine ⟨?_, key⟩
  rw [constructDataPoints_eq, List.unzip_eq_map]
  show ((pointsOf i entries).map Prod.snd).map viridisByType = _
  induction entries with
  | nil => rfl
  | cons e entries ih =>
    rw [pointsOf_cons, List.map_append, List.map_append, ih]
    cases hr : rowOf e.Data.Message with
    | none => simp [pointsOf, hr]
    | some row =>
      obtain ⟨r0, r2⟩ := rowOf_range _ _ hr
      simp [pointsOf, hr, key row r0 r2]

/-- Witness of C10: source 5, one entry of every category. -/
theorem colour_index_is_offset_witness :
    (0 : Int) ≤ 5 ∧ (5 : Int) * 6 + 2 ≤ 2 ^ 53 ∧
    (constructDataPoints 5 [mkEntry 1 "lock.a.acquired-lock",
      mkEntry 2 "register-ttl.a.lock-expired", mkEntry 3 "release.a.released-lock"]).2.map
      viridisByType = [0, 2, 1] :=
  ⟨by decide, by decide,
    (colour_index_is_offset 5 [mkEntry 1 "lock.a.acquired-lock",
      mkEntry 2 "register-ttl.a.lock-expired", mkEntry 3 "release.a.released-lock"]
      (by decide) (by decide)).1.trans (by decide)⟩

/-! ## `parse` -/

theorem parse_foldl (l : List ChugEntry) (acc : Entries) :
    l.foldl
      (fun (entries : Entries) (entry : ChugEntry) =>
        if !entry.IsLager then entries
        else entries ++
          [{ Data := entry.Log, Errored := (entry.Log.LogLevel == LogLevel.ERROR) }])
      acc =
    acc ++ (l.filter (fun r => r.IsLager)).map
      (fun r => { Data := r.Log, Errored := (r.Log.LogLevel == LogLevel.ERROR) }) := by
  induction l generalizing acc with
  | nil => simp
  | cons r l ih =>
    rw [List.foldl_cons, ih]
    cases h : r.IsLager <;> simp [List.filter_cons, h]

/-- C7: for every sequence of records the decoder delivers, `parse` returns,
in the original order, one `Entry` per record with `IsLager` true and none for
an unstructured record, with a nil error; each `Entry` carries the log data of
its record, and `Errored` is true exactly when the level is ERROR (so false for
FATAL, INFO and DEBUG). -/
theorem parse_keeps_lager_records (Chug : Reader → List ChugEntry) (data : Reader) :
    parse Chug data =
      (((Chug data).filter (fun r => r.IsLager)).map
        (fun r => { Data := r.Log, Errored := (r.Log.LogLevel == LogLevel.ERROR) }), none) ∧
    (∀ e ∈ (parse Chug data).1, (e.Errored = true ↔ e.Data.LogLevel = LogLevel.ERROR)) ∧
    (∀ e ∈ (parse Chug data).1, e.Data.LogLevel = LogLevel.FATAL ∨
      e.Data.LogLevel = LogLevel.INFO ∨ e.Data.LogLevel = LogLevel.DEBUG → e.Errored = false) := by
  have hp : parse Chug data =
      (((Chug data).filter (fun r => r.IsLager)).map
        (fun r => { Data := r.Log, Errored := (r.Log.LogLevel == LogLevel.ERROR) }), none) := by
    unfold parse
    simp only [parse_foldl, List.nil_append]
  have hiff : ∀ e ∈ (parse Chug data).1, (e.Errored = true ↔ e.Data.LogLevel = LogLevel.ERROR) := by
    intro e he
    rw [hp] at he
    obtain ⟨r, -, rfl⟩ := List.mem_map.mp he
    simp
  refine ⟨hp, hiff, ?_⟩
  intro e he hl
  cases hE : e.Errored with
  | false => rfl
  | true =>
    have := (hiff e he).mp hE
    rcases hl with h | h | h <;> rw [this] at h <;> cases h

/-- C8, as the code has it: refuted as stated. There is no decoder and no
input for which `parse` returns a non-nil error: its error result is the
constant nil. -/
theorem parse_never_returns_error :
    ¬ ∃ (Chug : Reader → List ChugEntry) (data : Reader), (parse Chug data).2 ≠ none := by
  rintro ⟨Chug, data, h⟩
  exact h rfl

theorem loadAndParseLoop_ok (ReadFile : String → Except GoError Reader)
    (Chug : Reader → List ChugEntry) (read : String → Reader) (files : List String)
    (servers : List Entries) (h : ∀ f ∈ files, ReadFile f = .ok (read f)) :
    loadAndParseLoop ReadFile Chug files servers =
      (servers ++ files.map (fun f => (parse Chug (read f)).1), none) := by
  induction files generalizing servers with
  | nil => simp [loadAndParseLoop]
  | cons f rest ih =>
    have hf : ReadFile f = .ok (read f) := h f (List.mem_cons_self _ _)
    have hrest : ∀ g ∈ rest, ReadFile g = .ok (read g) :=
      fun g hg => h g (List.mem_cons_of_mem _ hg)
    have hp : parse Chug (read f) = ((parse Chug (read f)).1, none) := rfl
    rw [loadAndParseLoop, hf]
    simp only []
    rw [hp]
    simp only []
    rw [ih _ hrest]
    simp

theorem loadAndParseLoop_error (ReadFile : String → Except GoError Reader)
    (Chug : Reader → List ChugEntry) (read : String → Reader) (pre : List String) (f : String)
    (post : List String) (err : GoError) (servers : List Entries)
    (hpre : ∀ g ∈ pre, ReadFile g = .ok (read g)) (hf : ReadFile f = .error err) :
    loadAndParseLoop ReadFile Chug (pre ++ f :: post) servers = ([], some err) := by
  induction pre generalizing servers with
  | nil =>
    rw [List.nil_append, loadAndParseLoop, hf]
  | cons g pre ih =>
    have hg : ReadFile g = .ok (read g) := hpre g (List.mem_cons_self _ _)
    have hrest : ∀ k ∈ pre, ReadFile k = .ok (read k) :=
      fun k hk => hpre k (List.mem_cons_of_mem _ hk)
    have hp : parse Chug (read g) = ((parse Chug (read g)).1, none) := rfl
    rw [List.cons_append, loadAndParseLoop, hg]
    simp only []
    rw [hp]
    simp only []
    exact ih _ hrest

/-- C8, amended: `parse` never returns an error (bytes that do not decode
reach it as records with `IsLager` false, which it skips). When reading a file
fails, the files before it having been read, `loadAndParseLogFiles` returns
`(nil, err)` with the error of that read and no entries for any source; when
every file is read it returns the entries of each file, in order, with a nil
error. -/
theorem loadAndParseLogFiles_read_error (ReadFile : String → Except GoError Reader)
    (Chug : Reader → List ChugEntry) (read : String → Reader) (pre : List String) (f : String)
    (post : List String) (err : GoError)
    (hpre : ∀ g ∈ pre, ReadFile g = .ok (read g)) (hf : ReadFile f = .error err) :
    loadAndParseLogFiles ReadFile Chug (pre ++ f :: post) = ([], some err) ∧
    (∀ data : Reader, (parse Chug data).2 = none) ∧
    (∀ files : List String, (∀ g ∈ files, ReadFile g = .ok (read g)) →
      loadAndParseLogFiles ReadFile Chug files =
        (files.map (fun g => (parse Chug (read g)).1), none)) := by
  refine ⟨loadAndParseLoop_error ReadFile Chug read pre f post err [] hpre hf,
    fun _ => rfl, ?_⟩
  intro files h
  rw [loadAndParseLogFiles, loadAndParseLoop_ok ReadFile Chug read files [] h]
  simp

/-- Witness of C8: the second of three files cannot be read. -/
theorem loadAndParseLogFiles_read_error_witness :
    loadAndParseLogFiles
      (fun f => if f = "a.log" then .ok [123, 125] else .error "open b.log: no such file")
      (fun _ => []) (["a.log"] ++ "b.log" :: ["a.log"])
      = ([], some "open b.log: no such file") :=
  (loadAndParseLogFiles_read_error
    (fun f => if f = "a.log" then .ok [123, 125] else .error "open b.log: no such file")
    (fun _ => []) (fun _ => [123, 125]) ["a.log"] "b.log" ["a.log"] "open b.log: no such file"
    (by intro g hg; rw [List.mem_singleton.mp hg]; rfl) (by simp)).1

/-! ## The matchers -/

theorem Match_dotted (a b : String) (m : String) :
    Regex.Match (.cat (.literal a) (.cat (.literal ".") (.cat (.star .dot) (.literal b)))) m
        = true ↔
      ∃ pre mid post, m.toList = pre ++ (a.toList ++ ".".toList) ++ mid ++ b.toList ++ post ∧
        Regex.newline ∉ mid := by
  rw [Regex.Match_iff]
  constructor
  · rintro ⟨pre, s, post, h, hs⟩
    obtain ⟨mid, rfl, hmid⟩ := (Regex.lang_dotted a b s).mp hs
    exact ⟨pre, mid, post, by rw [h]; simp only [List.append_assoc], hmid⟩
  · rintro ⟨pre, mid, post, h, hmid⟩
    exact ⟨pre, a.toList ++ ".".toList ++ mid ++ b.toList, post,
      by rw [h]; simp only [List.append_assoc], (Regex.lang_dotted a b _).mpr ⟨mid, rfl, hmid⟩⟩

theorem Match_loose (a b : String) (m : String) :
    Regex.Match (.cat (.literal a) (.cat (.star .dot) (.literal b))) m = true ↔
      ∃ pre mid post, m.toList = pre ++ a.toList ++ mid ++ b.toList ++ post ∧
        Regex.newline ∉ mid := by
  rw [Regex.Match_iff]
  constructor
  · rintro ⟨pre, s, post, h, hs⟩
    obtain ⟨mid, rfl, hmid⟩ := (Regex.lang_loose a b s).mp hs
    exact ⟨pre, mid, post, by rw [h]; simp only [List.append_assoc], hmid⟩
  · rintro ⟨pre, mid, post, h, hmid⟩
    exact ⟨pre, a.toList ++ mid ++ b.toList, post,
      by rw [h]; simp only [List.append_assoc], (Regex.lang_loose a b _).mpr ⟨mid, rfl, hmid⟩⟩

theorem dotted_imp_loose (a b : String) (m : String)
    (h : Regex.Match (.cat (.literal a) (.cat (.literal ".") (.cat (.star .dot) (.literal b)))) m
      = true) :
    Regex.Match (.cat (.literal a) (.cat (.star .dot) (.literal b))) m = true := by
  obtain ⟨pre, mid, post, hm, hmid⟩ := (Match_dotted a b m).mp h
  refine (Match_loose a b m).mpr ⟨pre, ".".toList ++ mid, post, ?_, ?_⟩
  · rw [hm]; simp only [List.append_assoc]
  · intro hn
    rcases List.mem_append.mp hn with h1 | h1
    · revert h1
      decide
    · exact hmid h1

/-- C9, as the code has it: refuted as stated. The matchers require a literal
dot after the first word, which the shapes of the specification do not: the
message `lock acquired-lock` has the acquired shape and matches no expired
shape, yet `acquiredLock` rejects it and `constructDataPoints` emits no point;
likewise for the released and the expired shape. -/
theorem matchers_require_literal_dot :
    (specAcquiredShape.Match "lock acquired-lock" = true ∧
      acquiredLock.Match "lock acquired-lock" = false) ∧
    (specReleasedShape.Match "release released-lock" = true ∧
      releasedLock.Match "release released-lock" = false) ∧
    (specExpiredShape.Match "register-ttl lock-expired" = true ∧
      expiredLock.Match "register-ttl lock-expired" = false) ∧
    (specExpiredShape.Match "lock acquired-lock" = false ∧
      constructDataPoints 0 [mkEntry 1 "lock acquired-lock"] = ([], [])) := by
  decide

/-- C9, amended: the three matchers are unanchored searches for the shapes
with a literal dot after the first word. `acquiredLock` matches a message iff
it contains `lock.` followed, with no line feed in between, by `acquired-lock`;
`releasedLock` iff it contains `release.` followed so by `released-lock`;
`expiredLock` iff it contains `register-ttl.` followed so by `lock-expired`.
Every message a matcher accepts has the shape the specification gives
(`lock.*acquired-lock`, `release.*released-lock`, `register-ttl.*lock-expired`),
not conversely. -/
theorem matchers_shapes (m : String) :
    (acquiredLock.Match m = true ↔
      ∃ pre mid post, m.toList = pre ++ "lock.".toList ++ mid ++ "acquired-lock".toList ++ post ∧
        Regex.newline ∉ mid) ∧
    (releasedLock.Match m = true ↔
      ∃ pre mid post, m.toList = pre ++ "release.".toList ++ mid ++ "released-lock".toList ++ post ∧
        Regex.newline ∉ mid) ∧
    (expiredLock.Match m = true ↔
      ∃ pre mid post, m.toList = pre ++ "register-ttl.".toList ++ mid ++ "lock-expired".toList
        ++ post ∧ Regex.newline ∉ mid) ∧
    (acquiredLock.Match m = true → specAcquiredShape.Match m = true) ∧
    (releasedLock.Match m = true → specReleasedShape.Match m = true) ∧
    (expiredLock.Match m = true → specExpiredShape.Match m = true) :=
  ⟨Match_dotted "lock" "acquired-lock" m, Match_dotted "release" "released-lock" m,
    Match_dotted "register-ttl" "lock-expired" m, dotted_imp_loose "lock" "acquired-lock" m,
    dotted_imp_loose "release" "released-lock" m,
    dotted_imp_loose "register-ttl" "lock-expired" m⟩

/-- Witness of C9: a locket message with session words between the two parts. -/
theorem matchers_shapes_witness :
    acquiredLock.Match "locket.lock.acquired-lock" = true ∧
    specAcquiredShape.Match "locket.lock.acquired-lock" = true :=
  ⟨by decide, (matchers_shapes "locket.lock.acquired-lock").2.2.2.1 (by decide)⟩

end Loganalysis
